import Mathlib

/-!
Verification development for the two traversal/filtering tools of the
repository: `AgentOps/Scripts/codebase_to_markdown.py` (Markdown dump) and
`AgentOps/Scripts/tree_gitignore.py` (tree printer).

The Python code is shallowly embedded:
* paths are lists of path segments (`List String`); a posix path string is
  obtained by interleaving `'/'`;
* bytes are `Fin 256`; file contents are `List (Fin 256)`;
* `fnmatch.fnmatch` is modelled by an executable glob matcher over `List Char`
  (star matches any characters including `'/'`, question mark one character,
  bracket classes with optional leading `!` negation and `a-z` ranges —
  mirroring the Python `fnmatch.translate` semantics on POSIX, where
  `os.path.normcase` is the identity);
* the `float` comparison `count / len > 0.30` is modelled by the exact integer
  comparison `10 * count > 3 * len`: for `len ≤ 1024` the rational `count/len`
  differs from `3/10` by at least `1/(10*1024)` whenever it differs at all,
  which dwarfs double rounding error, and when `count/len = 3/10` exactly both
  sides of the Python comparison round to the same double — so the float test
  and the integer test agree on every reachable input;
* filesystem facts the code queries (`Path(...).is_dir()` relative to the
  process working directory) are oracle parameters.
-/

/-! ### A glob matcher modelling Python `fnmatch.fnmatch` -/

/-- Splits a bracket-class body from the remainder of a pattern: consumes
characters up to the first unconsumed `']'`.  Returns `none` when no closing
bracket exists (Python then treats `'['` as a literal character). -/
def globClassSplit : List Char → List Char → Option (List Char × List Char)
  | [], _ => none
  | ']' :: rest, acc => some (acc.reverse, rest)
  | c :: rest, acc => globClassSplit rest (c :: acc)

/-- Extracts a bracket class from the pattern tail following `'['`:
handles the leading `'!'` negation marker and a literal `']'` as first class
character, as `fnmatch.translate` does. -/
def globClassExtract (ps : List Char) : Option (Bool × List Char × List Char) :=
  let neg := ps.head? = some '!'
  let q := if neg then ps.tail else ps
  match q with
  | ']' :: r => (globClassSplit r [']']).map (fun br => (neg, br.1, br.2))
  | _ => (globClassSplit q []).map (fun br => (neg, br.1, br.2))

/-- Membership of a character in a bracket-class body, with `a-z` ranges; a
hyphen that is first or last in the body is literal. -/
def globClassElem : List Char → Char → Bool
  | a :: '-' :: b :: rest, c =>
    (a.toNat ≤ c.toNat && c.toNat ≤ b.toNat) || globClassElem rest c
  | a :: rest, c => (a = c) || globClassElem rest c
  | [], _ => false

/-- Fuelled core of the glob matcher; the fuel only serves to make the
definition structurally recursive (every call strictly decreases
`pattern.length + s.length`, so `pattern.length + s.length + 1` fuel always
suffices and the `0` branch is unreachable from `fnmatch`). -/
def globFuel : Nat → List Char → List Char → Bool
  | 0, _, _ => false
  | _ + 1, [], s => s.isEmpty
  | fuel + 1, p :: ps, s =>
    if p = '*' then
      match s with
      | [] => globFuel fuel ps []
      | _ :: s' => globFuel fuel ps s || globFuel fuel (p :: ps) s'
    else if p = '?' then
      match s with
      | [] => false
      | _ :: s' => globFuel fuel ps s'
    else if p = '[' then
      match globClassExtract ps with
      | some (neg, body, rest) =>
        match s with
        | [] => false
        | c :: s' => (neg != globClassElem body c) && globFuel fuel rest s'
      | none =>
        match s with
        | [] => false
        | c :: s' => (c = '[') && globFuel fuel ps s'
    else
      match s with
      | [] => false
      | c :: s' => (c = p) && globFuel fuel ps s'

/-- Model of `fnmatch.fnmatch(name, pattern)` on POSIX. -/
def fnmatch (name pattern : String) : Bool :=
  globFuel (pattern.data.length + name.data.length + 1) pattern.data name.data

/-! ### Path helpers -/

/-- Model of `pathlib.Path.relative_to`: succeeds exactly when `base` is a
(possibly empty, possibly full) segment prefix of `p`; a `ValueError` is
`none`. -/
def relativeTo (p base : List String) : Option (List String) :=
  if base <+: p then some (p.drop base.length) else none

/-- Model of `PurePath.as_posix()` on a relative path given as segments; the
empty segment list renders as `"."` exactly as `Path('.')` does. -/
def posixOf (parts : List String) : String :=
  if parts.isEmpty then "." else String.mk (List.intercalate ['/'] (parts.map String.data))

/-- Model of `str.rstrip('/')`. -/
def rstripSlashes (s : String) : String :=
  String.mk ((s.data.reverse.dropWhile (fun c => c = '/')).reverse)

/-- Model of `str.startswith` (defined over the character lists so that it
evaluates by kernel reduction). -/
def strStartsWith (s t : String) : Bool :=
  t.data.isPrefixOf s.data

/-- Model of `str.endswith`. -/
def strEndsWith (s t : String) : Bool :=
  t.data.reverse.isPrefixOf s.data.reverse

/-- Model of Python slicing `s[:-n]` for `n ≤ len(s)`. -/
def strDropRight (s : String) (n : Nat) : String :=
  String.mk (s.data.take (s.data.length - n))

/-- Model of Python slicing `s[n:]`. -/
def strDropLeft (s : String) (n : Nat) : String :=
  String.mk (s.data.drop n)

/-- Model of `'/' in s` for a character. -/
def strHasChar (s : String) (c : Char) : Bool :=
  s.data.contains c

/-- Concatenation over the character lists. -/
def strCat (s t : String) : String :=
  String.mk (s.data ++ t.data)

/-! ### Gitignore matching (`codebase_to_markdown.parse_gitignore`,
`get_gitignore_patterns`, `matches_gitignore`) -/

/-- Model of Python `str.isspace()` restricted to the ASCII whitespace
characters that can occur in the inputs of interest. -/
def isPySpace (c : Char) : Bool :=
  c = ' ' || c = '\t' || c = '\n' || c = '\r' || c = '\x0b' || c = '\x0c'

/-- Model of `str.strip()` (whitespace stripping on both ends). -/
def pyStrip (s : String) : String :=
  String.mk (((s.data.dropWhile isPySpace).reverse.dropWhile isPySpace).reverse)

/-- Embeds `parse_gitignore`: the loop body strips each line and appends it to
the pattern list when it is nonempty and does not start with `'#'`.  The file
is represented by its list of lines (without terminators). -/
def parse_gitignore_lines (lines : List String) : List String :=
  lines.foldl
    (fun patterns line =>
      let l := pyStrip line
      if l ≠ "" && !strStartsWith l "#" then patterns ++ [l] else patterns)
    []

/-- Embeds `tree_gitignore.load_gitignore_patterns`: the comprehension keeps
the original (unstripped) line exactly when it is nonempty and its stripped
form does not start with `'#'`. -/
def load_gitignore_patterns_lines (lines : List String) : List String :=
  lines.filter (fun line => line ≠ "" && !strStartsWith (pyStrip line) "#")

/-- Embeds the per-pattern body of the loop in `matches_gitignore`
(lines 152-174): `relToG` is `relative_to_gitignore_dir` as segments, and
`isDirAt` is the filesystem oracle behind `Path(...).is_dir()` (a path
resolved against the process working directory). -/
def gitignorePatternHit (isDirAt : String → Bool) (relToG : List String)
    (pattern : String) : Bool :=
  let is_dir_pattern := strEndsWith pattern "/"
  let match_pattern := rstripSlashes pattern
  let relStr := posixOf relToG
  let hit := fnmatch relStr match_pattern || fnmatch relStr (strCat match_pattern "/*") ||
    relToG.any (fun part => fnmatch part match_pattern)
  if hit then
    if is_dir_pattern then isDirAt relStr || relToG.contains match_pattern
    else true
  else false

/-- Embeds `matches_gitignore(relative_path_posix, gitignore_patterns_map)`.
`cwd` is `Path('.').resolve()` as absolute segments, `relParts` the candidate
path (relative to the source directory) as segments, and `m` the gitignore
map: absolute scope directory with its pattern list, in the insertion order of
`get_gitignore_patterns` (the source directory first, then its ancestors).
Line 147 of the source computes
`path_obj.relative_to(gitignore_dir.relative_to(Path('.').resolve()))`; a
`ValueError` in either `relative_to` skips the scope. -/
def matches_gitignore (isDirAt : String → Bool) (cwd : List String)
    (relParts : List String) (m : List (List String × List String)) : Bool :=
  m.any fun scope =>
    match relativeTo scope.1 cwd with
    | none => false
    | some gRel =>
      match relativeTo relParts gRel with
      | none => false
      | some relToG => scope.2.any (gitignorePatternHit isDirAt relToG)

/-- Modelled from the spec: missing from the source is a correct scope
relativization — the spec's words are "for each scope directory that is an
ancestor of (or equal to) the candidate's directory, compute the candidate's
path relative to that scope, and test it against every pattern in that scope's
rule set".  `sourceAbs` is the resolved source directory, so the candidate's
absolute path is `sourceAbs ++ relParts`; per-pattern matching reuses the
source's own pattern semantics. -/
def spec_matches_ignore (isDirAt : String → Bool) (sourceAbs : List String)
    (relParts : List String) (m : List (List String × List String)) : Bool :=
  m.any fun scope =>
    match relativeTo (sourceAbs ++ relParts) scope.1 with
    | none => false
    | some relToG => scope.2.any (gitignorePatternHit isDirAt relToG)

/-! ### Binary detection (`is_binary_file`) -/

/-- The extension denylist `BINARY_EXTENSIONS`. -/
def BINARY_EXTENSIONS : List String :=
  [".jpg", ".jpeg", ".png", ".gif", ".bmp", ".svg", ".ico", ".webp", ".tiff", ".tif",
   ".mp4", ".avi", ".mov", ".wmv", ".flv", ".webm", ".mkv", ".m4v",
   ".mp3", ".wav", ".flac", ".aac", ".ogg", ".wma", ".m4a",
   ".zip", ".rar", ".7z", ".tar", ".gz", ".bz2", ".xz",
   ".pdf", ".doc", ".docx", ".xls", ".xlsx", ".ppt", ".pptx",
   ".exe", ".dll", ".so", ".dylib", ".bin", ".app", ".deb", ".rpm", ".msi",
   ".ttf", ".otf", ".woff", ".woff2", ".eot",
   ".db", ".sqlite", ".sqlite3", ".mdb",
   ".iso", ".img", ".dmg", ".toast", ".vcd"]

/-- Model of `str.lower()` restricted to ASCII (all denylist entries are
ASCII). -/
def asciiLower (s : String) : String :=
  String.mk (s.data.map (fun c =>
    if 'A' ≤ c && c ≤ 'Z' then Char.ofNat (c.toNat + 32) else c))

/-- The byte set `bytearray({7,8,9,10,12,13,27} | set(range(0x20, 0x100)) -
{0x7f})` from line 42 of `is_binary_file`. -/
def text_chars : List (Fin 256) :=
  ([7, 8, 9, 10, 12, 13, 27] : List (Fin 256)) ++
    (List.finRange 256).filter (fun b => decide (0x20 ≤ b.val) && decide (b.val ≠ 0x7f))

/-- The content test of `is_binary_file` on the sampled chunk: a null byte, or
strictly more than 30% of the sample outside `text_chars` (the guard
`if chunk` makes the ratio test short-circuit on an empty sample, so the
division is never evaluated with a zero-length chunk; the float comparison is
modelled exactly by the integer comparison, see the header). -/
def is_binary_chunk (chunk : List (Fin 256)) : Bool :=
  chunk.contains 0 ||
    (!chunk.isEmpty &&
      10 * (chunk.filter (fun b => !text_chars.contains b)).length > 3 * chunk.length)

/-- Model of `pathlib.PurePath.suffix`: the final `'.'`-separated extension,
empty when the name has no dot, starts with its only dot, or ends with a
dot. -/
def suffixOf (name : String) : String :=
  let rev := name.data.reverse
  let afterRev := rev.takeWhile (fun c => c ≠ '.')
  if afterRev.length = rev.length then ""
  else if afterRev.length = 0 then ""
  else if rev.length = afterRev.length + 1 then ""
  else String.mk ('.' :: afterRev.reverse)

/-- Embeds `is_binary_file`.  `content` is `none` when opening/reading the
file raises `IOError`/`OSError` (the code then returns `True`), otherwise the
file's bytes; `f.read(1024)` samples the first 1024 of them. -/
def is_binary_file (suffix : String) (content : Option (List (Fin 256))) : Bool :=
  if BINARY_EXTENSIONS.contains (asciiLower suffix) then true
  else
    match content with
    | none => true
    | some bytes => is_binary_chunk (bytes.take 1024)

/-- Modelled from the spec (for comparison with `text_chars`): the claimed
allowed set "consisting exactly of tab, newline, carriage return, form feed,
escape, and bytes 0x20-0xFF excluding the delete character (0x7F)". -/
def spec_allowed_byte (b : Fin 256) : Bool :=
  b = 9 || b = 10 || b = 13 || b = 12 || b = 27 ||
    (decide (0x20 ≤ b.val) && decide (b.val ≠ 0x7f))

/-- Modelled from the spec: the content classification C2 claims, with the
spec's allowed set. -/
def spec_is_binary_chunk (chunk : List (Fin 256)) : Bool :=
  chunk.contains 0 ||
    (!chunk.isEmpty &&
      10 * (chunk.filter (fun b => !spec_allowed_byte b)).length > 3 * chunk.length)

/-! ### Exclude-pattern matching and the traversal (`main`) -/

/-- Embeds the pattern normalization of the directory-exclusion loop
(lines 257-261): a trailing `"/*"` is stripped, else a single trailing
`"/"`. -/
def normalizeDirPattern (pattern : String) : String :=
  if strEndsWith pattern "/*" then strDropRight pattern 2
  else if strEndsWith pattern "/" then strDropRight pattern 1
  else pattern

/-- Embeds one exclude-pattern test against a subdirectory's relative posix
path (lines 263-276): first the normalized pattern, then — when that fails,
the normalized pattern starts with `"**/"` and the path is a bare name — the
pattern with the `"**/"` anchor removed. -/
def dirPatternTest (dirRelPosix : String) (pattern : String) : Bool :=
  let p := normalizeDirPattern pattern
  fnmatch dirRelPosix p ||
    (strStartsWith p "**/" && !(strHasChar dirRelPosix '/') && fnmatch dirRelPosix (strDropLeft p 3))

/-- A subdirectory matches the exclude patterns when any pattern passes
`dirPatternTest` (the loop breaks at the first hit). -/
def dirMatchesExcludePatterns (patterns : List String) (dirRelPosix : String) : Bool :=
  patterns.any (dirPatternTest dirRelPosix)

/-- Embeds the file-level exclude-pattern check (lines 337-341): the raw
pattern is tested with `fnmatch` against the file's relative posix path —
no normalization and no `"**/"` fallback. -/
def fileMatchesExcludePatterns (patterns : List String) (relPosix : String) : Bool :=
  patterns.any (fun p => fnmatch relPosix p)

/-- The static configuration of one `main` run: literal exclude names, exclude
patterns, the resolved working directory, the collected gitignore map, and the
`is_dir` filesystem oracle used inside `matches_gitignore`. -/
structure Config where
  excludeDirs : List String
  patterns : List String
  cwd : List String
  gitignoreMap : List (List String × List String)
  isDirAt : String → Bool

/-- Stage (1) of the directory filter (line 242): literal-exclude name or
leading dot. -/
def dirStd (cfg : Config) (d : String) : Bool :=
  cfg.excludeDirs.contains d || strStartsWith d "."

/-- Stage (2) of the directory filter (lines 253-291): exclude patterns
against the subdirectory's relative path. -/
def dirPat (cfg : Config) (relDir : List String) (d : String) : Bool :=
  dirMatchesExcludePatterns cfg.patterns (posixOf (relDir ++ [d]))

/-- Stage (3) of the directory filter (line 295): gitignore match. -/
def dirGit (cfg : Config) (relDir : List String) (d : String) : Bool :=
  matches_gitignore cfg.isDirAt cfg.cwd (relDir ++ [d]) cfg.gitignoreMap

/-- A subdirectory survives all three stages (line 246 and line 307). -/
def dirKept (cfg : Config) (relDir : List String) (d : String) : Bool :=
  !dirStd cfg d && !dirPat cfg relDir d && !dirGit cfg relDir d

/-- The run's skip/process counters (lines 223-228 of `main`). -/
structure Counters where
  processed : Nat := 0
  excludedDir : Nat := 0
  gitignore : Nat := 0
  readError : Nat := 0
  outputFile : Nat := 0
  patternExclude : Nat := 0
deriving DecidableEq, Repr

/-- Pointwise addition of counters. -/
def Counters.add (a b : Counters) : Counters :=
  ⟨a.processed + b.processed, a.excludedDir + b.excludedDir, a.gitignore + b.gitignore,
   a.readError + b.readError, a.outputFile + b.outputFile, a.patternExclude + b.patternExclude⟩

/-- Sum of all six counters (one walk event accounts for exactly one). -/
def Counters.total (c : Counters) : Nat :=
  c.processed + c.excludedDir + c.gitignore + c.readError + c.outputFile + c.patternExclude

/-- Outcome of the directory-exclusion block of one visited directory
(lines 239-307): surviving names in order, and the three counter
increments. -/
structure DirFilterOut where
  kept : List String
  nStd : Nat
  nPat : Nat
  nGit : Nat
deriving DecidableEq, Repr

/-- Embeds the directory-exclusion block: the set
`dirs_to_remove_std_exclude` is built first and removed in place; the
remaining names are tested against the exclude patterns and — only when those
fail — against the gitignore map, incrementing one counter per name; the
reporting loop over the std-exclude set then counts its (distinct) members
(`os.walk` never repeats a name within one directory, so deduplication is the
identity on real listings). -/
def filterDirs (cfg : Config) (relDir : List String) (dirs : List String) : DirFilterOut :=
  let rem := dirs.filter (fun d => !dirStd cfg d)
  { kept := rem.filter (fun d => !dirPat cfg relDir d && !dirGit cfg relDir d)
    nStd := (dirs.filter (fun d => dirStd cfg d)).dedup.length
    nPat := (rem.filter (fun d => dirPat cfg relDir d)).length
    nGit := (rem.filter (fun d => !dirPat cfg relDir d && dirGit cfg relDir d)).length }

/-- The attributes of one directory entry that the file-processing loop
consults: its name, whether its absolute path equals the output file, its
bytes (`none` when the binary sniff's `open`/`read` raises), and whether the
later text-mode read of line 358 succeeds. -/
structure FileAttrs where
  name : String
  isOutput : Bool
  content : Option (List (Fin 256))
  readOk : Bool

/-- The seven exits of the per-file body (lines 311-370). -/
inductive FileOutcome where
  | accepted
  | output
  | binary
  | stdPath
  | patternEx
  | gitign
  | readErr
deriving DecidableEq, Repr

/-- Embeds the per-file decision chain, in source order: output-file
self-exclusion, binary sniff, literal-exclude path segments, exclude patterns,
gitignore, then the text read. -/
def processFile (cfg : Config) (relDir : List String) (f : FileAttrs) : FileOutcome :=
  if f.isOutput then .output
  else if is_binary_file (suffixOf f.name) f.content then .binary
  else if (relDir ++ [f.name]).any (fun part => cfg.excludeDirs.contains part) then .stdPath
  else if fileMatchesExcludePatterns cfg.patterns (posixOf (relDir ++ [f.name])) then .patternEx
  else if matches_gitignore cfg.isDirAt cfg.cwd (relDir ++ [f.name]) cfg.gitignoreMap then .gitign
  else if f.readOk then .accepted
  else .readErr

/-- The counter increment of each outcome.  Line 325 increments
`skipped_read_error` for binary files ("Count as read error for simplicity"):
the binary outcome and the read-failure outcome share the `readError`
counter. -/
def outcomeDelta : FileOutcome → Counters
  | .accepted => { processed := 1 }
  | .output => { outputFile := 1 }
  | .binary => { readError := 1 }
  | .stdPath => { excludedDir := 1 }
  | .patternEx => { patternExclude := 1 }
  | .gitign => { gitignore := 1 }
  | .readErr => { readError := 1 }

/-- A directory tree: named subtrees and the files of the root. -/
inductive FSTree where
  | node : List (String × FSTree) → List FileAttrs → FSTree

/-- Result of a walk: accepted relative paths in emission order, and the
counters. -/
structure WalkOut where
  accepted : List (List String)
  counters : Counters
deriving Repr

/-- Sequencing of walk results. -/
def WalkOut.seq (a b : WalkOut) : WalkOut :=
  ⟨a.accepted ++ b.accepted, a.counters.add b.counters⟩

/-- Counter increments of the directory-exclusion block. -/
def dirCounters (o : DirFilterOut) : Counters :=
  { excludedDir := o.nStd, patternExclude := o.nPat, gitignore := o.nGit }

/-- Accepted paths and counters contributed by the files of one directory. -/
def fileWalk (cfg : Config) (relDir : List String) (files : List FileAttrs) : WalkOut :=
  ⟨(files.filter (fun f => processFile cfg relDir f = .accepted)).map
      (fun f => relDir ++ [f.name]),
   (files.map (fun f => outcomeDelta (processFile cfg relDir f))).foldl Counters.add {}⟩

mutual
/-- Embeds one `os.walk(source_dir, topdown=True)` step at a visited
directory: the directory-exclusion block runs first (its counters), the files
of the directory are processed in order, and the walk then descends into the
surviving subdirectories in order — pruned subdirectories are never
entered. -/
def walkTree (cfg : Config) (rel : List String) : FSTree → WalkOut
  | .node subs files =>
    (WalkOut.seq ⟨[], dirCounters (filterDirs cfg rel (subs.map Prod.fst))⟩
        (fileWalk cfg rel files)).seq
      (walkChildren cfg rel subs)

/-- Descends into exactly the subdirectories that survive the three filter
stages, in listing order. -/
def walkChildren (cfg : Config) (rel : List String) : List (String × FSTree) → WalkOut
  | [] => ⟨[], {}⟩
  | (d, t) :: rest =>
    if dirKept cfg rel d then
      (walkTree cfg (rel ++ [d]) t).seq (walkChildren cfg rel rest)
    else walkChildren cfg rel rest
end

/-! ### Tree printer (`tree_gitignore.build_tree`) -/

/-- One entry of a listed directory level, as the sort key of line 30 sees it:
its name and the value of `Path.is_file()`. -/
structure Entry where
  name : String
  isFile : Bool
deriving DecidableEq, Repr

/-- Code-point comparison of character lists — Python's `str` comparison,
used inside the tuple comparison of `sorted`'s key. -/
def charListLE : List Char → List Char → Bool
  | [], _ => true
  | _ :: _, [] => false
  | a :: as, b :: bs =>
    a.toNat < b.toNat || (a.toNat = b.toNat && charListLE as bs)

/-- The ordering induced by the key `(x.is_file(), x.name.lower())` of
line 30: tuple comparison orders `False` before `True`, then compares the
lowercased names. -/
def entryLE (a b : Entry) : Prop :=
  ((!a.isFile && b.isFile) ||
    (a.isFile == b.isFile &&
      charListLE (asciiLower a.name).data (asciiLower b.name).data)) = true

instance : DecidableRel entryLE := fun a b => by unfold entryLE; infer_instance

/-- Embeds `sorted(list(current_dir_path.iterdir()), key=lambda x:
(x.is_file(), x.name.lower()))`: a stable sort by the key. -/
def sortEntries (items : List Entry) : List Entry :=
  items.insertionSort entryLE

/-- Embeds the emission order of one level of `build_tree` (lines 30-47): the
sorted listing filtered by the gitignore spec (`ignore` abstracts
`spec.match_file` of the external `pathspec` library), printed in order. -/
def levelEntries (ignore : Entry → Bool) (items : List Entry) : List Entry :=
  (sortEntries items).filter (fun e => !ignore e)

/-! ### The pre-traversal configuration checks of `main` (lines 196-235) -/

/-- Embeds the fatal configuration checks of `main` and the run that follows
them: the source-directory check (line 202) and the output-collision check
(line 206) each return before any traversal; otherwise the tree is walked and
the output file is (over)written with the rendered dump.  The output file's
content is abstracted by the list of accepted paths it renders; the returned
triple is (output content after the run, reported counters, whether a
traversal happened). -/
def mainRun (sourceIsDir : Bool) (existingOutput : Option (List (List String)))
    (force : Bool) (cfg : Config) (tree : FSTree) :
    Option (List (List String)) × Counters × Bool :=
  if !sourceIsDir then (existingOutput, {}, false)
  else if existingOutput.isSome && !force then (existingOutput, {}, false)
  else
    let w := walkTree cfg [] tree
    (some w.accepted, w.counters, true)

/-! ### Support definitions for the claims -/

/-- The allowed byte set that `text_chars` actually denotes, spelled out: the
spec's list (tab, newline, carriage return, form feed, escape, bytes
0x20-0xFF except 0x7F) plus bell (7) and backspace (8). -/
def amendedAllowedByte (b : Fin 256) : Bool :=
  b = 7 || b = 8 || b = 9 || b = 10 || b = 12 || b = 13 || b = 27 ||
    (decide (0x20 ≤ b.val) && decide (b.val ≠ 0x7f))

/-- A configuration with no exclusions at all (used for concrete runs). -/
def cfgZero : Config :=
  { excludeDirs := [], patterns := [], cwd := [], gitignoreMap := [], isDirAt := fun _ => false }

/-- The default-like configuration used by concrete runs: one literal exclude
name and one recursive exclude pattern. -/
def cfgW : Config :=
  { excludeDirs := ["bin"], patterns := ["**/build/*"], cwd := [], gitignoreMap := [],
    isDirAt := fun _ => false }

/-- A readable file whose extension is on the binary denylist. -/
def filePng : FileAttrs :=
  { name := "img.png", isOutput := false, content := some [65, 66], readOk := true }

/-- A readable, acceptable text file. -/
def fileTxt : FileAttrs :=
  { name := "out.txt", isOutput := false, content := some [104, 105], readOk := true }

/-- A sample subtree used by concrete walks. -/
def treeLeaf : FSTree := .node [] [fileTxt]

/-- The staged characterization of the directory-exclusion block: the kept
list consists of the names passing all three stages, each counter counts the
names removed by its stage (given that the earlier stages passed), and every
name is accounted for exactly once. -/
def dirFilterStaged (cfg : Config) (relDir : List String) (dirs : List String) : Prop :=
  (filterDirs cfg relDir dirs).kept = dirs.filter (fun d => dirKept cfg relDir d) ∧
  (filterDirs cfg relDir dirs).nStd = (dirs.filter (fun d => dirStd cfg d)).length ∧
  (filterDirs cfg relDir dirs).nPat =
    (dirs.filter (fun d => !dirStd cfg d && dirPat cfg relDir d)).length ∧
  (filterDirs cfg relDir dirs).nGit =
    (dirs.filter (fun d => !dirStd cfg d && !dirPat cfg relDir d && dirGit cfg relDir d)).length ∧
  (filterDirs cfg relDir dirs).nStd + (filterDirs cfg relDir dirs).nPat +
      (filterDirs cfg relDir dirs).nGit + (filterDirs cfg relDir dirs).kept.length =
    dirs.length

/-- The single directory-level counter increment charged for a pruned
subdirectory, by the stage that removed it. -/
def prunedDelta (cfg : Config) (rel : List String) (d : String) : Counters :=
  if dirStd cfg d then { excludedDir := 1 }
  else if dirPat cfg rel d then { patternExclude := 1 }
  else { gitignore := 1 }

/-- What claim C6 asserts of a pruned subdirectory `(d, t)` of a visited
directory: the walk equals the walk of the same directory without that
subtree, with exactly one directory-level skip added; and no accepted path
lies strictly below the pruned directory. -/
def prunedSubtreeInert (cfg : Config) (rel : List String)
    (s₁ s₂ : List (String × FSTree)) (d : String) (t : FSTree)
    (files : List FileAttrs) : Prop :=
  walkTree cfg rel (.node (s₁ ++ (d, t) :: s₂) files) =
    { accepted := (walkTree cfg rel (.node (s₁ ++ s₂) files)).accepted,
      counters := (walkTree cfg rel (.node (s₁ ++ s₂) files)).counters.add
        (prunedDelta cfg rel d) } ∧
  (prunedDelta cfg rel d).total = 1 ∧
  ∀ p ∈ (walkTree cfg rel (.node (s₁ ++ (d, t) :: s₂) files)).accepted,
    ¬((rel ++ [d]) <+: p ∧ rel.length + 1 < p.length)

/-! ### Helper lemmas -/

/-! ### Claim theorems -/

/-- C1: the claim says that for every candidate and every ignore-rule scope
that is an ancestor of (or equal to) the candidate's directory, the matcher
tests the candidate's scope-relative path against the scope's patterns,
independently of the process working directory.  The code instead relativizes
the scope directory against `Path('.').resolve()`: with the working directory
equal to the source directory `/home/user/proj`, the ancestor scope
`/home/user` (pattern `secret`) raises `ValueError` and is skipped, so
`sub/secret` is not ignored although the spec-mandated scope-relative
matching ignores it; and moving the working directory to `/home/user` flips
the verdict, so the result does depend on the working directory. -/
theorem gitignore_scope_relativization_bug :
    matches_gitignore (fun _ => false) ["home", "user", "proj"] ["sub", "secret"]
        [(["home", "user"], ["secret"])] = false ∧
    spec_matches_ignore (fun _ => false) ["home", "user", "proj"] ["sub", "secret"]
        [(["home", "user"], ["secret"])] = true ∧
    matches_gitignore (fun _ => false) ["home", "user"] ["sub", "secret"]
        [(["home", "user"], ["secret"])] = true := by
  decide

/-- C2 counterexample: the claim's allowed set omits bell (7) and backspace
(8), which `text_chars` contains.  A sample consisting of a single bell byte
is classified as text by the code, while the claimed rule (30% outside the
spec's allowed set) would classify it as binary. -/
theorem binary_allowed_set_counterexample :
    is_binary_file "" (some [7]) = false ∧ spec_is_binary_chunk [7] = true := by
  decide

set_option maxRecDepth 8192 in
/-- C2 (amended): for a readable file whose lowercased extension is not on
the denylist, the classifier depends only on the first 1024 bytes and returns
binary exactly when the sample contains a null byte or strictly more than 30%
of it falls outside the allowed set, where the allowed set additionally
contains bell (7) and backspace (8) beside the spec's list. -/
theorem is_binary_file_content_rule (suffix : String) (content : List (Fin 256))
    (h : BINARY_EXTENSIONS.contains (asciiLower suffix) = false) :
    (is_binary_file suffix (some content) = true ↔
      (0 : Fin 256) ∈ content.take 1024 ∨
        10 * ((content.take 1024).countP (fun b => !amendedAllowedByte b)) >
          3 * (content.take 1024).length) := by
  have hb : ∀ b : Fin 256, text_chars.contains b = amendedAllowedByte b := by decide
  have hfun : ∀ l : List (Fin 256),
      l.filter (fun b => !text_chars.contains b) =
        l.filter (fun b => !amendedAllowedByte b) := by
    intro l
    exact List.filter_congr (fun b _ => by rw [hb b])
  rw [List.countP_eq_length_filter]
  unfold is_binary_file
  rw [h]
  simp only [Bool.false_eq_true, if_false]
  unfold is_binary_chunk
  rw [hfun]
  cases hc : content.take 1024 with
  | nil => simp
  | cons b bs =>
    simp

/-- C2 witness: the amended rule evaluated at an extensionless file whose
sample is a single null byte. -/
theorem is_binary_file_content_rule_witness :
    BINARY_EXTENSIONS.contains (asciiLower "") = false ∧
      (is_binary_file "" (some [0]) = true ↔
        (0 : Fin 256) ∈ ([0] : List (Fin 256)).take 1024 ∨
          10 * ((([0] : List (Fin 256)).take 1024).countP (fun b => !amendedAllowedByte b)) >
            3 * (([0] : List (Fin 256)).take 1024).length) :=
  ⟨by decide, is_binary_file_content_rule "" [0] (by decide)⟩

/-- C3 counterexample: a readable file skipped for binary content (a `.png`
extension, bytes present, text read fine) is charged to the read-error
counter — line 325 runs `skipped_read_error += 1` for binary files and no
separate binary-content counter exists, so a pure content decision increments
the unreadable-content counter, contrary to the claim. -/
theorem binary_counter_counterexample :
    processFile cfgZero [] filePng = .binary ∧ filePng.content.isSome = true ∧
      outcomeDelta (processFile cfgZero [] filePng) = { readError := 1 } := by
  decide

/-- C3 (amended): the traversal keeps one shared counter
(`skipped_read_error`) for binary content and unreadable content — every file
skipped as binary and every file whose text read fails increments exactly
that counter. -/
theorem binary_and_read_error_share_counter (cfg : Config) (relDir : List String)
    (f : FileAttrs)
    (h : processFile cfg relDir f = .binary ∨ processFile cfg relDir f = .readErr) :
    outcomeDelta (processFile cfg relDir f) = { readError := 1 } := by
  rcases h with h | h <;> rw [h] <;> rfl

/-- C3 witness: the shared-counter rule applied to the concrete binary
file. -/
theorem binary_and_read_error_share_counter_witness :
    (processFile cfgZero [] filePng = .binary ∨ processFile cfgZero [] filePng = .readErr) ∧
      outcomeDelta (processFile cfgZero [] filePng) = { readError := 1 } :=
  ⟨Or.inl (by decide),
    binary_and_read_error_share_counter cfgZero [] filePng (Or.inl (by decide))⟩

/-- C5 counterexample: the pattern `**/build` against the bare relative path
`build` — the directory check accepts it through the anchor fallback, but the
file check (raw `fnmatch`, lines 337-341) rejects it, so the claimed
"file or directory alike" behaviour fails for files. -/
theorem recursive_anchor_file_counterexample :
    fileMatchesExcludePatterns ["**/build"] "build" = false ∧
      dirMatchesExcludePatterns ["**/build"] "build" = true := by
  decide

/-- C5 (amended): only the directory-pruning check has the recursive-anchor
fallback: after normalization, a pattern starting with `**/` matches a bare
single-segment candidate whenever the anchor's remainder matches it; the
file check tests the raw pattern only (see the counterexample). -/
theorem dir_anchor_bare_name_fallback (name pat : String)
    (h1 : strStartsWith (normalizeDirPattern pat) "**/" = true)
    (h2 : strHasChar name '/' = false)
    (h3 : fnmatch name (strDropLeft (normalizeDirPattern pat) 3) = true) :
    dirPatternTest name pat = true := by
  unfold dirPatternTest
  simp [h1, h2, h3]

/-- C5 witness: the fallback rule at the pattern `**/build` and the bare name
`build`. -/
theorem dir_anchor_bare_name_fallback_witness :
    strStartsWith (normalizeDirPattern "**/build") "**/" = true ∧
    strHasChar "build" '/' = false ∧
    fnmatch "build" (strDropLeft (normalizeDirPattern "**/build") 3) = true ∧
    dirPatternTest "build" "**/build" = true :=
  ⟨by decide, by decide, by decide,
    dir_anchor_bare_name_fallback "build" "**/build" (by decide) (by decide) (by decide)⟩

/-- C8 counterexample: a whitespace-only line.  The Markdown tool's parser
drops it (strip empties it), while the tree tool keeps it verbatim — so the
claim's uniform rule fails for one of the two tools under any fixed reading
of "blank line": read as "empty line", the line is an "other line" that
`parse_gitignore` does not keep; read as "whitespace-only line", the tree
tool's rule set contains a blank line. -/
theorem blank_line_handling_counterexample :
    parse_gitignore_lines ["   "] = [] ∧
      load_gitignore_patterns_lines ["   "] = ["   "] := by
  decide

theorem ignore_parse_fold (lines : List String) (acc : List String) :
    lines.foldl
      (fun patterns line =>
        let l := pyStrip line
        if l ≠ "" && !strStartsWith l "#" then patterns ++ [l] else patterns)
      acc =
    acc ++ (lines.map pyStrip).filter (fun l => l ≠ "" && !strStartsWith l "#") := by
  induction lines generalizing acc with
  | nil => simp
  | cons a t ih =>
    simp only [List.foldl_cons, List.map_cons, List.filter_cons, ih]
    by_cases h : ¬pyStrip a = "" ∧ strStartsWith (pyStrip a) "#" = false
    · simp [h]
    · simp [h]

/-- C8 (amended): the Markdown tool strips each line and keeps the stripped
form exactly when it is nonempty and does not start with `'#'` (so
whitespace-only lines are dropped and patterns are stored stripped), in file
order; the tree tool keeps the original line verbatim exactly when it is
nonempty and its stripped form does not start with `'#'` (so whitespace-only
lines are kept), in file order. -/
theorem ignore_file_parsing_rules (lines : List String) :
    parse_gitignore_lines lines =
      (lines.map pyStrip).filter (fun l => l ≠ "" && !strStartsWith l "#") ∧
    load_gitignore_patterns_lines lines =
      lines.filter (fun l => l ≠ "" && !strStartsWith (pyStrip l) "#") ∧
    (∀ l ∈ parse_gitignore_lines lines, l ≠ "" ∧ strStartsWith l "#" = false) ∧
    (∀ l ∈ load_gitignore_patterns_lines lines,
      l ≠ "" ∧ strStartsWith (pyStrip l) "#" = false) := by
  have h1 : parse_gitignore_lines lines =
      (lines.map pyStrip).filter (fun l => l ≠ "" && !strStartsWith l "#") := by
    unfold parse_gitignore_lines
    simpa using ignore_parse_fold lines []
  refine ⟨h1, rfl, ?_, ?_⟩
  · intro l hl
    rw [h1] at hl
    have := (List.mem_filter.mp hl).2
    simp only [Bool.and_eq_true, decide_eq_true_eq, Bool.not_eq_true'] at this
    exact ⟨this.1, this.2⟩
  · intro l hl
    have := (List.mem_filter.mp hl).2
    simp only [Bool.and_eq_true, decide_eq_true_eq, Bool.not_eq_true'] at this
    exact ⟨this.1, this.2⟩

/-- C9: when the designated output file exists and `--force` is absent, the
run returns at line 206: the output content is unchanged, no counters are
produced, and no traversal happens — for every tree, i.e. the walk is never
consulted. -/
theorem output_collision_aborts (sourceIsDir : Bool) (prev : List (List String))
    (cfg : Config) (tree : FSTree) :
    mainRun sourceIsDir (some prev) false cfg tree = (some prev, {}, false) := by
  unfold mainRun
  cases sourceIsDir <;> simp

/-- C10: an empty sample (zero-byte file) with an extension off the denylist
is classified as text; the `if chunk` guard short-circuits the ratio test, so
the model's ratio comparison (and the source's division) is never evaluated
on a zero-length sample. -/
theorem empty_sample_not_binary (suffix : String)
    (h : BINARY_EXTENSIONS.contains (asciiLower suffix) = false) :
    is_binary_file suffix (some []) = false := by
  unfold is_binary_file
  rw [h]
  simp [is_binary_chunk]

/-- C10 witness: the empty-sample rule at an extensionless name. -/
theorem empty_sample_not_binary_witness :
    BINARY_EXTENSIONS.contains (asciiLower "") = false ∧
      is_binary_file "" (some []) = false :=
  ⟨by decide, empty_sample_not_binary "" (by decide)⟩

theorem length_partition3 {α : Type} (l : List α) (p q r : α → Bool) :
    (l.filter p).length + (l.filter (fun a => !p a && q a)).length +
      (l.filter (fun a => !p a && !q a && r a)).length +
      (l.filter (fun a => !p a && !q a && !r a)).length = l.length := by
  induction l with
  | nil => rfl
  | cons a t ih =>
    by_cases h1 : p a = true <;> by_cases h2 : q a = true <;> by_cases h3 : r a = true <;>
      simp [List.filter_cons, h1, h2, h3] <;> omega

/-- C4: for a directory listing without repeated names (as `os.walk`
produces), the directory-exclusion block implements the three stages in
order with short-circuiting: the kept names are exactly those passing all
three stages, each removed name is counted by the first stage that matches
it, and the three counters together with the kept names account for every
name exactly once. -/
theorem dir_filter_stage_order (cfg : Config) (relDir : List String)
    (dirs : List String) (h : dirs.Nodup) : dirFilterStaged cfg relDir dirs := by
  unfold dirFilterStaged
  have c1 : (filterDirs cfg relDir dirs).kept =
      dirs.filter (fun d => dirKept cfg relDir d) := by
    simp only [filterDirs, List.filter_filter]
    exact List.filter_congr (fun d _ => by
      simp [dirKept, Bool.and_comm, Bool.and_left_comm, Bool.and_assoc])
  have c2 : (filterDirs cfg relDir dirs).nStd =
      (dirs.filter (fun d => dirStd cfg d)).length := by
    simp only [filterDirs]
    rw [List.Nodup.dedup (List.Nodup.filter _ h)]
  have c3 : (filterDirs cfg relDir dirs).nPat =
      (dirs.filter (fun d => !dirStd cfg d && dirPat cfg relDir d)).length := by
    simp only [filterDirs, List.filter_filter]
    congr 1
    exact List.filter_congr (fun d _ => by
      simp [Bool.and_comm, Bool.and_left_comm, Bool.and_assoc])
  have c4 : (filterDirs cfg relDir dirs).nGit =
      (dirs.filter
        (fun d => !dirStd cfg d && !dirPat cfg relDir d && dirGit cfg relDir d)).length := by
    simp only [filterDirs, List.filter_filter]
    congr 1
    exact List.filter_congr (fun d _ => by
      simp [Bool.and_comm, Bool.and_left_comm, Bool.and_assoc])
  refine ⟨c1, c2, c3, c4, ?_⟩
  rw [c1, c2, c3, c4]
  have := length_partition3 dirs (fun d => dirStd cfg d) (fun d => dirPat cfg relDir d)
    (fun d => dirGit cfg relDir d)
  simpa [dirKept] using this

/-- C4 witness: the staged characterization at a concrete listing containing
one literal-excluded name, one hidden name, one pattern-excluded name and one
kept name. -/
theorem dir_filter_stage_order_witness :
    (["bin", "build", "src", ".git"] : List String).Nodup ∧
      dirFilterStaged cfgW [] ["bin", "build", "src", ".git"] :=
  ⟨by decide, dir_filter_stage_order cfgW [] ["bin", "build", "src", ".git"] (by decide)⟩

theorem charListLE_total : ∀ (a b : List Char), charListLE a b = true ∨ charListLE b a = true := by
  intro a
  induction a with
  | nil => intro b; left; rfl
  | cons x xs ih =>
    intro b
    cases b with
    | nil => right; rfl
    | cons y ys =>
      rcases Nat.lt_trichotomy x.toNat y.toNat with hlt | heq | hgt
      · left; simp [charListLE, hlt]
      · rcases ih ys with h | h
        · left; simp [charListLE, heq, h]
        · right; simp [charListLE, heq.symm, h]
      · right; simp [charListLE, hgt]

theorem charListLE_trans : ∀ (a b c : List Char), charListLE a b = true →
    charListLE b c = true → charListLE a c = true := by
  intro a
  induction a with
  | nil => intro b c _ _; rfl
  | cons x xs ih =>
    intro b c h1 h2
    cases b with
    | nil => simp [charListLE] at h1
    | cons y ys =>
      cases c with
      | nil => simp [charListLE] at h2
      | cons z zs =>
        simp only [charListLE, Bool.or_eq_true, Bool.and_eq_true, decide_eq_true_eq] at h1 h2 ⊢
        rcases h1 with h1 | ⟨e1, r1⟩
        · rcases h2 with h2 | ⟨e2, r2⟩
          · left; omega
          · left; omega
        · rcases h2 with h2 | ⟨e2, r2⟩
          · left; omega
          · right; exact ⟨by omega, ih ys zs r1 r2⟩

instance : IsTotal Entry entryLE := by
  constructor
  intro a b
  unfold entryLE
  cases ha : a.isFile <;> cases hb : b.isFile <;> simp [ha, hb] <;>
    exact charListLE_total _ _

instance : IsTrans Entry entryLE := by
  constructor
  intro a b c hab hbc
  unfold entryLE at hab hbc ⊢
  cases ha : a.isFile <;> cases hb : b.isFile <;> cases hc : c.isFile <;>
    simp [ha, hb, hc] at hab hbc ⊢ <;>
    exact charListLE_trans _ _ _ hab hbc

/-- C7: the output of one listed level is a permutation of the listing in
which every pair of emitted entries is ordered by the sort key — directories
(`is_file() = False`) before files, and case-insensitive name order within
each of the two groups — and earlier entries are never files when later ones
are directories; the scenario with subdirectories `z`, `a` and file `m.txt`
prints as `a`, `z`, `m.txt`. -/
theorem tree_level_order (ignore : Entry → Bool) (items : List Entry) :
    (sortEntries items).Perm items ∧
    (levelEntries ignore items).Pairwise entryLE ∧
    (levelEntries ignore items).Pairwise (fun a b => a.isFile = true → b.isFile = true) ∧
    levelEntries (fun _ => false) [⟨"z", false⟩, ⟨"a", false⟩, ⟨"m.txt", true⟩] =
      [⟨"a", false⟩, ⟨"z", false⟩, ⟨"m.txt", true⟩] := by
  have hs : (sortEntries items).Pairwise entryLE := List.sorted_insertionSort entryLE items
  have hp : (levelEntries ignore items).Pairwise entryLE :=
    List.Pairwise.sublist (List.filter_sublist _) hs
  have himp : ∀ {a b : Entry}, entryLE a b → (a.isFile = true → b.isFile = true) := by
    intro a b hab hf
    unfold entryLE at hab
    simp [hf] at hab
    exact hab.1
  exact ⟨List.perm_insertionSort entryLE items, hp, hp.imp himp, by decide⟩

theorem walkTree_node_eq (cfg : Config) (rel : List String)
    (subs : List (String × FSTree)) (files : List FileAttrs) :
    walkTree cfg rel (.node subs files) =
      (WalkOut.seq ⟨[], dirCounters (filterDirs cfg rel (subs.map Prod.fst))⟩
          (fileWalk cfg rel files)).seq
        (walkChildren cfg rel subs) := by
  unfold walkTree
  rfl

theorem walkChildren_nil_eq (cfg : Config) (rel : List String) :
    walkChildren cfg rel [] = ⟨[], {}⟩ := by
  unfold walkChildren
  rfl

theorem walkChildren_cons_eq (cfg : Config) (rel : List String) (d : String)
    (t : FSTree) (rest : List (String × FSTree)) :
    walkChildren cfg rel ((d, t) :: rest) =
      if dirKept cfg rel d then
        (walkTree cfg (rel ++ [d]) t).seq (walkChildren cfg rel rest)
      else walkChildren cfg rel rest := by
  conv_lhs => unfold walkChildren

theorem Counters.zero_add (c : Counters) : Counters.add {} c = c := by
  cases c
  simp [Counters.add]

theorem Counters.add_assoc (a b c : Counters) : (a.add b).add c = a.add (b.add c) := by
  cases a; cases b; cases c
  simp [Counters.add, Counters.mk.injEq]
  omega

theorem Counters.add_rotate (r δ f ch : Counters) :
    ((r.add δ).add f).add ch = ((r.add f).add ch).add δ := by
  cases r; cases δ; cases f; cases ch
  simp [Counters.add, Counters.mk.injEq]
  omega

theorem WalkOut.zero_seq (a : WalkOut) : WalkOut.seq ⟨[], {}⟩ a = a := by
  cases a
  simp [WalkOut.seq, Counters.zero_add]

theorem WalkOut.seq_assoc (a b c : WalkOut) : (a.seq b).seq c = a.seq (b.seq c) := by
  cases a; cases b; cases c
  simp [WalkOut.seq, Counters.add_assoc]

theorem walkChildren_append (cfg : Config) (rel : List String)
    (l₁ l₂ : List (String × FSTree)) :
    walkChildren cfg rel (l₁ ++ l₂) =
      (walkChildren cfg rel l₁).seq (walkChildren cfg rel l₂) := by
  induction l₁ with
  | nil => rw [List.nil_append, walkChildren_nil_eq, WalkOut.zero_seq]
  | cons x rest ih =>
    obtain ⟨d, t⟩ := x
    rw [List.cons_append, walkChildren_cons_eq, walkChildren_cons_eq]
    by_cases hk : dirKept cfg rel d = true
    · rw [if_pos hk, if_pos hk, ih, WalkOut.seq_assoc]
    · rw [if_neg hk, if_neg hk, ih]

theorem filter_length_middle {α : Type} (n₁ n₂ : List α) (d : α) (f : α → Bool) :
    ((n₁ ++ d :: n₂).filter f).length =
      ((n₁ ++ n₂).filter f).length + (if f d then 1 else 0) := by
  by_cases h : f d = true <;> simp [List.filter_append, List.filter_cons, h] <;> omega

theorem filter_middle_not {α : Type} (n₁ n₂ : List α) (d : α) (f : α → Bool)
    (h : f d = false) :
    (n₁ ++ d :: n₂).filter f = (n₁ ++ n₂).filter f := by
  simp [List.filter_append, List.filter_cons, h]

theorem nodup_filter_dedup_middle {α : Type} [DecidableEq α] (n₁ n₂ : List α) (d : α)
    (hnd : (n₁ ++ d :: n₂).Nodup) (f : α → Bool) :
    ((n₁ ++ d :: n₂).filter f).dedup.length =
      ((n₁ ++ n₂).filter f).dedup.length + (if f d then 1 else 0) := by
  have hnd2 : (n₁ ++ n₂).Nodup := (List.nodup_cons.mp (List.nodup_middle.mp hnd)).2
  rw [List.Nodup.dedup (List.Nodup.filter _ hnd), List.Nodup.dedup (List.Nodup.filter _ hnd2)]
  exact filter_length_middle n₁ n₂ d f

theorem filterDirs_middle (cfg : Config) (rel : List String) (n₁ n₂ : List String)
    (d : String) (hnd : (n₁ ++ d :: n₂).Nodup) (hp : dirKept cfg rel d = false) :
    (filterDirs cfg rel (n₁ ++ d :: n₂)).kept = (filterDirs cfg rel (n₁ ++ n₂)).kept ∧
    dirCounters (filterDirs cfg rel (n₁ ++ d :: n₂)) =
      (dirCounters (filterDirs cfg rel (n₁ ++ n₂))).add (prunedDelta cfg rel d) := by
  have hstd := nodup_filter_dedup_middle n₁ n₂ d hnd (fun x => dirStd cfg x)
  cases h1 : dirStd cfg d with
  | true =>
    have hrem : (n₁ ++ d :: n₂).filter (fun x => !dirStd cfg x) =
        (n₁ ++ n₂).filter (fun x => !dirStd cfg x) :=
      filter_middle_not _ _ _ _ (by simp [h1])
    simp only [h1, if_true] at hstd
    constructor
    · simp only [filterDirs, hrem]
    · simp only [filterDirs, dirCounters, prunedDelta, h1, if_true, hrem]
      simp only [Counters.add, Counters.mk.injEq, hstd]
      simp
  | false =>
    have hrem : (n₁ ++ d :: n₂).filter (fun x => !dirStd cfg x) =
        (n₁.filter (fun x => !dirStd cfg x)) ++ d :: (n₂.filter (fun x => !dirStd cfg x)) := by
      simp [List.filter_append, List.filter_cons, h1]
    have hremR : (n₁ ++ n₂).filter (fun x => !dirStd cfg x) =
        (n₁.filter (fun x => !dirStd cfg x)) ++ (n₂.filter (fun x => !dirStd cfg x)) := by
      simp [List.filter_append]
    simp only [h1, Bool.false_eq_true, if_false, Nat.add_zero] at hstd
    cases h2 : dirPat cfg rel d with
    | true =>
      have hkept : ((n₁.filter (fun x => !dirStd cfg x)) ++ d ::
            (n₂.filter (fun x => !dirStd cfg x))).filter
              (fun x => !dirPat cfg rel x && !dirGit cfg rel x) =
          ((n₁.filter (fun x => !dirStd cfg x)) ++
            (n₂.filter (fun x => !dirStd cfg x))).filter
              (fun x => !dirPat cfg rel x && !dirGit cfg rel x) :=
        filter_middle_not _ _ _ _ (by simp [h2])
      have hpat := filter_length_middle (n₁.filter (fun x => !dirStd cfg x))
        (n₂.filter (fun x => !dirStd cfg x)) d (fun x => dirPat cfg rel x)
      simp only [h2, if_true] at hpat
      have hgit : ((n₁.filter (fun x => !dirStd cfg x)) ++ d ::
            (n₂.filter (fun x => !dirStd cfg x))).filter
              (fun x => !dirPat cfg rel x && dirGit cfg rel x) =
          ((n₁.filter (fun x => !dirStd cfg x)) ++
            (n₂.filter (fun x => !dirStd cfg x))).filter
              (fun x => !dirPat cfg rel x && dirGit cfg rel x) :=
        filter_middle_not _ _ _ _ (by simp [h2])
      constructor
      · simp only [filterDirs, hrem, hremR, hkept]
      · simp only [filterDirs, dirCounters, prunedDelta, h1, h2, Bool.false_eq_true, if_false,
          if_true, hrem, hremR, hkept, hgit]
        simp only [Counters.add, Counters.mk.injEq, hstd, hpat]
        simp
    | false =>
      have h3 : dirGit cfg rel d = true := by
        unfold dirKept at hp
        simp [h1, h2] at hp
        exact hp
      have hkept : ((n₁.filter (fun x => !dirStd cfg x)) ++ d ::
            (n₂.filter (fun x => !dirStd cfg x))).filter
              (fun x => !dirPat cfg rel x && !dirGit cfg rel x) =
          ((n₁.filter (fun x => !dirStd cfg x)) ++
            (n₂.filter (fun x => !dirStd cfg x))).filter
              (fun x => !dirPat cfg rel x && !dirGit cfg rel x) :=
        filter_middle_not _ _ _ _ (by simp [h3])
      have hpat : ((n₁.filter (fun x => !dirStd cfg x)) ++ d ::
            (n₂.filter (fun x => !dirStd cfg x))).filter (fun x => dirPat cfg rel x) =
          ((n₁.filter (fun x => !dirStd cfg x)) ++
            (n₂.filter (fun x => !dirStd cfg x))).filter (fun x => dirPat cfg rel x) :=
        filter_middle_not _ _ _ _ h2
      have hgit := filter_length_middle (n₁.filter (fun x => !dirStd cfg x))
        (n₂.filter (fun x => !dirStd cfg x)) d (fun x => !dirPat cfg rel x && dirGit cfg rel x)
      simp only [h2, h3, Bool.not_false, Bool.true_and, if_true] at hgit
      constructor
      · simp only [filterDirs, hrem, hremR, hkept]
      · simp only [filterDirs, dirCounters, prunedDelta, h1, h2, Bool.false_eq_true, if_false,
          hrem, hremR, hkept, hpat]
        simp only [Counters.add, Counters.mk.injEq, hstd, hgit]
        simp

theorem fileWalk_accepted_mem (cfg : Config) (rel : List String)
    (files : List FileAttrs) (p : List String)
    (h : p ∈ (fileWalk cfg rel files).accepted) : ∃ x, p = rel ++ [x] := by
  simp only [fileWalk, List.mem_map] at h
  obtain ⟨f, _, hf⟩ := h
  exact ⟨f.name, hf.symm⟩

theorem walkChildren_accepted_mem (cfg : Config) (rel : List String) :
    ∀ (l : List (String × FSTree)) (p : List String),
      p ∈ (walkChildren cfg rel l).accepted →
      ∃ d t, (d, t) ∈ l ∧ dirKept cfg rel d = true ∧
        p ∈ (walkTree cfg (rel ++ [d]) t).accepted := by
  intro l
  induction l with
  | nil =>
    intro p hp
    rw [walkChildren_nil_eq] at hp
    simp at hp
  | cons x rest ih =>
    obtain ⟨d, t⟩ := x
    intro p hp
    rw [walkChildren_cons_eq] at hp
    by_cases hk : dirKept cfg rel d = true
    · rw [if_pos hk] at hp
      rcases List.mem_append.mp hp with hp | hp
      · exact ⟨d, t, by simp, hk, hp⟩
      · obtain ⟨d', t', hmem, hk', hp'⟩ := ih p hp
        exact ⟨d', t', by simp [hmem], hk', hp'⟩
    · rw [if_neg hk] at hp
      obtain ⟨d', t', hmem, hk', hp'⟩ := ih p hp
      exact ⟨d', t', by simp [hmem], hk', hp'⟩

theorem walkTree_accepted_extends (cfg : Config) :
    ∀ (n : Nat) (t : FSTree), sizeOf t ≤ n → ∀ (rel p : List String),
      p ∈ (walkTree cfg rel t).accepted → ∃ x q, p = rel ++ x :: q := by
  intro n
  induction n with
  | zero =>
    intro t ht
    cases t with
    | node subs files =>
      simp [FSTree.node.sizeOf_spec] at ht
  | succ n ih =>
    intro t ht rel p hp
    cases t with
    | node subs files =>
      rw [walkTree_node_eq] at hp
      simp only [WalkOut.seq] at hp
      rcases List.mem_append.mp hp with hp | hp
      · rcases List.mem_append.mp hp with hp | hp
        · simp at hp
        · obtain ⟨x, hx⟩ := fileWalk_accepted_mem cfg rel files p hp
          exact ⟨x, [], hx⟩
      · obtain ⟨d, t', hmem, _, hp'⟩ := walkChildren_accepted_mem cfg rel subs p hp
        have h1 := List.sizeOf_lt_of_mem hmem
        have hsz : sizeOf t' ≤ n := by
          simp only [FSTree.node.sizeOf_spec] at ht
          simp only [Prod.mk.sizeOf_spec] at h1
          omega
        obtain ⟨x, q, hq⟩ := ih t' hsz (rel ++ [d]) p hp'
        refine ⟨d, x :: q, ?_⟩
        rw [hq, List.append_assoc]
        rfl

/-- C6: a subdirectory removed by any of the three filter stages contributes
nothing to the walk: the walk of the directory with the pruned subtree
present equals the walk without it plus exactly one directory-level counter
increment (charged to the stage that pruned it, and summing to one event),
and no accepted path lies strictly below the pruned directory.  The
no-repeated-names hypothesis reflects that `os.walk` never lists one name
twice within a directory. -/
theorem pruned_subtree_one_skip (cfg : Config) (rel : List String)
    (s₁ s₂ : List (String × FSTree)) (d : String) (t : FSTree)
    (files : List FileAttrs)
    (hnd : ((s₁ ++ (d, t) :: s₂).map Prod.fst).Nodup)
    (hp : dirKept cfg rel d = false) :
    prunedSubtreeInert cfg rel s₁ s₂ d t files := by
  have hmap : (s₁ ++ (d, t) :: s₂).map Prod.fst =
      s₁.map Prod.fst ++ d :: s₂.map Prod.fst := by simp
  have hmap2 : (s₁ ++ s₂).map Prod.fst = s₁.map Prod.fst ++ s₂.map Prod.fst := by simp
  have hnd' : (s₁.map Prod.fst ++ d :: s₂.map Prod.fst).Nodup := hmap ▸ hnd
  obtain ⟨-, hcnt⟩ :=
    filterDirs_middle cfg rel (s₁.map Prod.fst) (s₂.map Prod.fst) d hnd' hp
  have hch : walkChildren cfg rel (s₁ ++ (d, t) :: s₂) =
      walkChildren cfg rel (s₁ ++ s₂) := by
    rw [walkChildren_append, walkChildren_append, walkChildren_cons_eq,
      if_neg (by simp [hp])]
  have heq : walkTree cfg rel (.node (s₁ ++ (d, t) :: s₂) files) =
      { accepted := (walkTree cfg rel (.node (s₁ ++ s₂) files)).accepted,
        counters := (walkTree cfg rel (.node (s₁ ++ s₂) files)).counters.add
          (prunedDelta cfg rel d) } := by
    rw [walkTree_node_eq, walkTree_node_eq, hch, hmap, hmap2, hcnt]
    simp only [WalkOut.seq, WalkOut.mk.injEq]
    exact ⟨trivial, Counters.add_rotate _ _ _ _⟩
  refine ⟨heq, ?_, ?_⟩
  · unfold prunedDelta Counters.total
    by_cases h1 : dirStd cfg d = true
    · simp [h1]
    · by_cases h2 : dirPat cfg rel d = true <;> simp [h1, h2]
  · intro p hpmem hcond
    obtain ⟨hpre, hlen⟩ := hcond
    have hp2 : p ∈ (walkTree cfg rel (.node (s₁ ++ s₂) files)).accepted := by
      rw [heq] at hpmem
      exact hpmem
    rw [walkTree_node_eq] at hp2
    simp only [WalkOut.seq] at hp2
    rcases List.mem_append.mp hp2 with hmem | hmem
    · rcases List.mem_append.mp hmem with hmem | hmem
      · simp at hmem
      · obtain ⟨x, hx⟩ := fileWalk_accepted_mem cfg rel files p hmem
        rw [hx] at hlen
        simp at hlen
    · obtain ⟨d', t', hmm, hk', hp''⟩ :=
        walkChildren_accepted_mem cfg rel (s₁ ++ s₂) p hmem
      obtain ⟨x, q, hq⟩ :=
        walkTree_accepted_extends cfg (sizeOf t') t' le_rfl (rel ++ [d']) p hp''
      have hpre' : (rel ++ [d']) <+: p := ⟨x :: q, by rw [hq]⟩
      have e1 : rel ++ [d] = p.take (rel.length + 1) := by
        have h := List.prefix_iff_eq_take.mp hpre
        simpa using h
      have e2 : rel ++ [d'] = p.take (rel.length + 1) := by
        have h := List.prefix_iff_eq_take.mp hpre'
        simpa using h
      have hdd : d = d' := by
        have h : rel ++ [d] = rel ++ [d'] := by rw [e1, e2]
        simpa using h
      have hdin : d' ∈ (s₁ ++ s₂).map Prod.fst := List.mem_map_of_mem Prod.fst hmm
      rw [hmap2, ← hdd] at hdin
      exact (List.nodup_cons.mp (List.nodup_middle.mp hnd')).1 hdin

/-- C6 witness: the pruned-subtree rule at a concrete directory whose `bin`
subdirectory is removed by the literal-exclude stage. -/
theorem pruned_subtree_one_skip_witness :
    ((([] : List (String × FSTree)) ++ ("bin", treeLeaf) :: [("src", treeLeaf)]).map
        Prod.fst).Nodup ∧
      dirKept cfgW [] "bin" = false ∧
      prunedSubtreeInert cfgW [] [] [("src", treeLeaf)] "bin" treeLeaf [fileTxt] :=
  ⟨by decide, by decide,
    pruned_subtree_one_skip cfgW [] [] [("src", treeLeaf)] "bin" treeLeaf [fileTxt]
      (by decide) (by decide)⟩
